import Mathlib

/-!
Verification development for the stateflare visitor counter
(Cloudflare Worker + D1, `src/index.ts`, `src/index.test.ts`,
`migrations/0001_init.sql`).

The embedding covers:
* the referrer URL model and the two site-origin extractors found in the
  repository (the deployed one in `src/index.ts`, which keeps the whole
  pathname, and the one the unit tests in `src/index.test.ts` exercise,
  which keeps only the first path segment);
* the visitor hash (`generateVisitorHash`): SHA-256 over the UTF-8 bytes
  of `ip ++ ":" ++ userAgent`, rendered byte-by-byte as two lowercase hex
  digits;
* the D1-backed store (`visitors` and `site_stats` tables) and the
  operations `trackVisitor` and `getStats`, plus the `/track` and `/stats`
  request handlers around them.

URL model scope: the parser models `new URL(...)` on ASCII input.  It
covers the scheme syntax; the five special schemes http, https, ws, wss
and ftp with authority parsing (any number of slashes or backslashes
after the colon, optional userinfo, a percent-decoded lowercased host
checked against the forbidden domain code points, a decimal port with
default-port elision) and dot-segment normalisation of the path; and
every other valid scheme (mailto, foo, file, ...) in its opaque-path,
rooted-path and authority forms, whose origin serialises as the literal
string `null` — so, as in a browser, such URLs are accepted, not
rejected.  `none` is returned exactly where `new URL` throws on this
fragment.  Outside the fragment (none of it exercised by any theorem):
bracketed IPv6 hosts, non-ASCII input and IDNA/punycode `xn--` labels,
percent-encoded dot segments, and raw characters a WHATWG parser would
percent-encode on output.  Timestamp columns
(`created_at`, `updated_at`, `first_visit`, `last_visit`) and the
autoincrement `id` column are omitted from the rows: no claim mentions
them and they would only thread an uninterpreted clock through every
statement.
-/

namespace Stateflare

/-! ## Character-list helpers for the URL model -/

/-- Split a character list at the first occurrence of `sep`: the part
before it, and `some` remainder after it (`none` when `sep` does not
occur). -/
def breakOnChar (sep : Char) : List Char → List Char × Option (List Char)
  | [] => ([], none)
  | c :: cs =>
    if c = sep then ([], some cs)
    else
      let r := breakOnChar sep cs
      (c :: r.1, r.2)

/-- The longest boundary-free head and the rest: `(takeWhile (not ∘ p) l,
dropWhile (not ∘ p) l)`. -/
def spanNot (p : Char → Bool) (l : List Char) : List Char × List Char :=
  (l.takeWhile (fun c => !(p c)), l.dropWhile (fun c => !(p c)))

/-- JavaScript `String.prototype.split` on a single-character separator,
as used by the test file on `url.pathname`: `"a//b".split("/")` is
`["a", "", "b"]`. -/
def splitChar (sep : Char) (l : List Char) : List (List Char) :=
  l.foldr
    (fun c acc =>
      if c = sep then [] :: acc
      else
        match acc with
        | [] => [[c]]
        | a :: as => (c :: a) :: as)
    [[]]

/-- Decimal value of a digit list (the digits are already checked). -/
def digitsToNat (cs : List Char) : Nat :=
  cs.foldl (fun a c => a * 10 + (c.toNat - 48)) 0

/-! ## The parsed URL -/

/-- The components of a parsed absolute URL that `getSiteOrigin` reads:
`url.origin` is rebuilt from `scheme`, `host` and `port`, and
`url.pathname` is `pathname`.  `search` and `fragment` are carried only
to record that the parser discards them from the origin. -/
structure URLRec where
  scheme : List Char
  host : List Char
  port : Option Nat
  pathname : List Char
  search : List Char
  fragment : List Char
deriving DecidableEq, Repr

/-- The special schemes of the WHATWG URL standard that have a host and a
default port; `new URL` requires `//` after them and gives their URLs a
tuple origin. -/
def specialSchemes : List (List Char × Nat) :=
  [("http".data, 80), ("https".data, 443), ("ws".data, 80),
   ("wss".data, 443), ("ftp".data, 21)]

/-- Default port of a special scheme, `none` for any other scheme. -/
def defaultPort (scheme : List Char) : Option Nat :=
  (specialSchemes.find? (fun p => p.1 == scheme)).map Prod.snd

/-- Scheme syntax: one ASCII letter, then letters, digits, `+`, `-`, `.`. -/
def validSchemeChars : List Char → Bool
  | [] => false
  | c :: cs =>
    c.isAlpha && cs.all (fun d => d.isAlpha || d.isDigit || d = '+' || d = '-' || d = '.')

/-- The forbidden host code points of the URL standard (the set that
applies to opaque hosts of non-special schemes). -/
def forbiddenHostChar (c : Char) : Bool :=
  c.toNat < 32 || c = ' ' || c = '#' || c = '/' || c = ':' || c = '<' ||
  c = '>' || c = '?' || c = '@' || c = '[' || c.toNat = 92 || c = ']' ||
  c = '^' || c = '|' || c.toNat = 127

/-- The forbidden domain code points, checked on a special scheme's host
after percent-decoding: the forbidden host code points plus `%`. -/
def forbiddenDomainChar (c : Char) : Bool :=
  forbiddenHostChar c || c = '%'

/-- The value of one hexadecimal digit. -/
def hexVal (c : Char) : Option Nat :=
  if c.isDigit then some (c.toNat - 48)
  else if 97 ≤ c.toNat ∧ c.toNat ≤ 102 then some (c.toNat - 87)
  else if 65 ≤ c.toNat ∧ c.toNat ≤ 70 then some (c.toNat - 55)
  else none

/-- Percent-decoding as the host parser applies it: every valid `%XX`
pair becomes its byte, malformed sequences stay as written. -/
def percentDecode : List Char → List Char
  | '%' :: a :: b :: rest =>
    match hexVal a, hexVal b with
    | some x, some y => Char.ofNat (x * 16 + y) :: percentDecode rest
    | _, _ => '%' :: percentDecode (a :: b :: rest)
  | c :: rest => c :: percentDecode rest
  | [] => []

/-- The host-and-port part of an authority: everything after the last
`@` (the userinfo before it is dropped, as `new URL` drops it from the
origin), or the whole authority when there is no `@`. -/
def hostPortPart (auth : List Char) : List Char :=
  match breakOnChar '@' auth.reverse with
  | (_, none) => auth
  | (revTail, some _) => revTail.reverse

/-- Parse the optional `:port` text: `some none` for an absent or empty
port, `some (some n)` for a valid decimal port, `none` when `new URL`
would throw (non-digits, or a value above 65535). -/
def parsePort : Option (List Char) → Option (Option Nat)
  | none => some none
  | some pcs =>
    if pcs = [] then some none
    else if pcs.all Char.isDigit then
      if digitsToNat pcs ≤ 65535 then some (some (digitsToNat pcs)) else none
    else none

/-- Dot-segment removal of the URL path state: a `..` segment removes
the previous segment, a `.` segment is dropped, and when either ends
the path an empty segment is appended (so the result keeps its
trailing slash); every other segment — empty ones included — is kept. -/
def normalizeSegments (acc : List (List Char)) : List (List Char) → List (List Char)
  | [] => acc
  | [seg] =>
    if seg = ['.', '.'] then acc.dropLast ++ [[]]
    else if seg = ['.'] then acc ++ [[]]
    else acc ++ [seg]
  | seg :: rest =>
    if seg = ['.', '.'] then normalizeSegments acc.dropLast rest
    else if seg = ['.'] then normalizeSegments acc rest
    else normalizeSegments (acc ++ [seg]) rest

/-- A rooted (non-opaque) pathname from the raw path text (`[]` or
starting with `/`): split into segments, remove dot segments, rejoin. -/
def normalizePath (raw : List Char) : List Char :=
  if raw = [] then ['/']
  else
    '/' :: List.intercalate ['/'] (normalizeSegments [] ((splitChar '/' raw).drop 1))

/-- The query part of the `?`/`#` suffix of a URL. -/
def searchOf (suf : List Char) : List Char :=
  match suf with
  | '?' :: qs => (spanNot (fun c => c = '#') qs).1
  | _ => []

/-- The fragment part of the `?`/`#` suffix of a URL. -/
def fragmentOf (suf : List Char) : List Char :=
  match suf with
  | '?' :: qs =>
    (match (spanNot (fun c => c = '#') qs).2 with
     | '#' :: fs => fs
     | _ => [])
  | '#' :: fs => fs
  | _ => []

/-- The model of `new URL(referrer)` on the ASCII fragment described in
the file header.  After the WHATWG preprocessing (trim leading and
trailing C0 controls and spaces, strip tabs and newlines), the scheme
is read up to the first `:`.  A special scheme takes an authority after
any number of slashes (backslashes count as slashes up to the query or
fragment), with optional userinfo, a percent-decoded lowercased
non-empty host free of forbidden domain code points, an optional
decimal port, and a dot-normalized rooted path.  Any other valid scheme
never reaches a host: `//` introduces an authority with an opaque
(possibly empty) host, a leading `/` a rooted path, and anything else
an opaque path taken verbatim; its origin serialises as `null`.
`none` is returned exactly where `new URL` throws on this fragment: no
valid scheme, an empty or forbidden special host, or an invalid port. -/
def parseURLChars (input : List Char) : Option URLRec :=
  let cs := (((input.dropWhile (fun c => c.toNat ≤ 32)).reverse.dropWhile
      (fun c => c.toNat ≤ 32)).reverse).filter
      (fun c => !(c.toNat = 9 || c.toNat = 10 || c.toNat = 13))
  match breakOnChar ':' cs with
  | (_, none) => none
  | (schemeRaw, some rest) =>
    if validSchemeChars schemeRaw then
      let scheme := schemeRaw.map Char.toLower
      if (defaultPort scheme).isSome then
        let pre := ((spanNot (fun c => c = '?' || c = '#') rest).1).map
          (fun c => if c.toNat = 92 then '/' else c)
        let suf := (spanNot (fun c => c = '?' || c = '#') rest).2
        let afterSlashes := pre.dropWhile (fun c => c = '/')
        let auth := (spanNot (fun c => c = '/') afterSlashes).1
        let rawPath := (spanNot (fun c => c = '/') afterSlashes).2
        match breakOnChar ':' (hostPortPart auth) with
        | (hostRaw, portPart) =>
          let host := (percentDecode hostRaw).map Char.toLower
          if host ≠ [] && host.all (fun c => !(forbiddenDomainChar c)) then
            match parsePort portPart with
            | none => none
            | some port =>
              some ⟨scheme, host, port, normalizePath rawPath,
                searchOf suf, fragmentOf suf⟩
          else none
      else
        match rest with
        | '/' :: '/' :: rest2 =>
          let auth := (spanNot (fun c => c = '/' || c = '?' || c = '#') rest2).1
          let rest3 := (spanNot (fun c => c = '/' || c = '?' || c = '#') rest2).2
          match breakOnChar ':' (hostPortPart auth) with
          | (hostRaw, portPart) =>
            if hostRaw.all (fun c => !(forbiddenHostChar c)) then
              match parsePort portPart with
              | none => none
              | some port =>
                let rawPath := (spanNot (fun c => c = '?' || c = '#') rest3).1
                let suf := (spanNot (fun c => c = '?' || c = '#') rest3).2
                some ⟨scheme, hostRaw, port,
                  (if rawPath = [] then [] else normalizePath rawPath),
                  searchOf suf, fragmentOf suf⟩
            else none
        | _ =>
          let rawPath := (spanNot (fun c => c = '?' || c = '#') rest).1
          let suf := (spanNot (fun c => c = '?' || c = '#') rest).2
          match rawPath with
          | '/' :: _ =>
            some ⟨scheme, [], none, normalizePath rawPath, searchOf suf, fragmentOf suf⟩
          | _ => some ⟨scheme, [], none, rawPath, searchOf suf, fragmentOf suf⟩
    else none

/-- `new URL(referrer)` on a string. -/
def parseURL (s : String) : Option URLRec :=
  parseURLChars s.data

/-- `url.origin`: for a special scheme, `scheme://host` with `:port`
appended only when the port is present and differs from the scheme's
default port; for every other scheme the origin serialises as the
literal string `null`. -/
def URLRec.originChars (u : URLRec) : List Char :=
  if (defaultPort u.scheme).isSome then
    u.scheme ++ ':' :: '/' :: '/' :: u.host ++
      (match u.port with
       | none => []
       | some p => if defaultPort u.scheme = some p then [] else ':' :: Nat.toDigits 10 p)
  else
    "null".data

/-- `url.origin` as a string. -/
def URLRec.origin (u : URLRec) : String :=
  String.mk u.originChars

/-- Model of `s.replace(/\/$/, '')`: the regular expression matches one
slash at the end of the string, so exactly one trailing slash is
removed when present. -/
def stripTrailingSlash (s : String) : String :=
  match s.data.getLast? with
  | some '/' => String.mk s.data.dropLast
  | _ => s

/-- `getSiteOrigin` as deployed in `src/index.ts`: empty referrer fails,
a parse failure fails, and otherwise the result is
`url.origin + url.pathname` with one trailing slash stripped — the whole
pathname is kept. -/
def getSiteOrigin (referrer : String) : Option String :=
  if referrer = "" then none
  else
    match parseURL referrer with
    | none => none
    | some u => some (stripTrailingSlash (String.mk (u.originChars ++ u.pathname)))

namespace TestFile

/-- `getSiteOrigin` as the unit tests in `src/index.test.ts` define and
exercise it: split `url.pathname` on `/`, drop empty segments, and
return `url.origin` followed by only the first segment (or the bare
origin when no segment remains). -/
def getSiteOrigin (referrer : String) : Option String :=
  if referrer = "" then none
  else
    match parseURL referrer with
    | none => none
    | some u =>
      let pathSegments := (splitChar '/' u.pathname).filter (fun seg => seg.length > 0)
      match pathSegments with
      | [] => some u.origin
      | seg :: _ => some (String.mk (u.originChars ++ '/' :: seg))

end TestFile

example : getSiteOrigin "https://xxx.github.io/yyy/zzz" = some "https://xxx.github.io/yyy/zzz" := by decide
example : getSiteOrigin "https://example.com" = some "https://example.com" := by decide
example : getSiteOrigin "https://example.com/" = some "https://example.com" := by decide
example : getSiteOrigin "" = none := by decide
example : getSiteOrigin "not-a-url" = none := by decide
example : getSiteOrigin "https://example.com/blog?page=1" = some "https://example.com/blog" := by decide
example : getSiteOrigin "https://example.com/blog#section" = some "https://example.com/blog" := by decide
example : TestFile.getSiteOrigin "https://xxx.github.io/yyy/zzz" = some "https://xxx.github.io/yyy" := by decide
example : TestFile.getSiteOrigin "https://xxx.github.io/yyy" = some "https://xxx.github.io/yyy" := by decide
example : TestFile.getSiteOrigin "https://example.com/" = some "https://example.com" := by decide
example : TestFile.getSiteOrigin "https://example.com/blog/2024/01/post" = some "https://example.com/blog" := by decide
example : TestFile.getSiteOrigin "https://example.com/blog/post?id=123#comments" = some "https://example.com/blog" := by decide
example : TestFile.getSiteOrigin "not-a-url" = none := by decide
example : getSiteOrigin "https://h:8443/a" = some "https://h:8443/a" := by decide
example : getSiteOrigin "https://h:443/a" = some "https://h/a" := by decide
example : getSiteOrigin "HTTPS://H/a" = some "https://h/a" := by decide
example : getSiteOrigin "mailto:x" = some "nullx" := by decide
example : getSiteOrigin "http:example.com" = some "http://example.com" := by decide
example : getSiteOrigin "https:/example.com/a" = some "https://example.com/a" := by decide
example : getSiteOrigin "https://user:pass@h/a" = some "https://h/a" := by decide
example : getSiteOrigin "https://h/a/../b" = some "https://h/b" := by decide
example : getSiteOrigin "https://h/a/./b" = some "https://h/a/b" := by decide
example : getSiteOrigin "https://h/a/.." = some "https://h" := by decide
example : getSiteOrigin "https://h/a%20b" = some "https://h/a%20b" := by decide
example : getSiteOrigin "https://h%41/" = some "https://ha" := by decide
example : getSiteOrigin "file:///tmp/a" = some "null/tmp/a" := by decide
example : getSiteOrigin "foo://h/a/b" = some "null/a/b" := by decide
example : getSiteOrigin "https://" = none := by decide
example : getSiteOrigin "https://h:99999/" = none := by decide
example : getSiteOrigin "https://h:ab/" = none := by decide
example : getSiteOrigin "https://h h/" = none := by decide

/-! ## SHA-256 and the visitor hash

`generateVisitorHash` feeds the UTF-8 bytes of `ip + ":" + userAgent` to
`crypto.subtle.digest('SHA-256', ...)` and renders each digest byte with
`b.toString(16).padStart(2, '0')`.  The platform's SHA-256 is embedded
here as the FIPS 180-4 algorithm over `Nat` words reduced mod `2 ^ 32`. -/

/-- UTF-8 encoding of one character (the model of `TextEncoder`). -/
def utf8Encode (c : Char) : List Nat :=
  let n := c.toNat
  if n < 128 then [n]
  else if n < 2048 then [192 + n / 64, 128 + n % 64]
  else if n < 65536 then [224 + n / 4096, 128 + n / 64 % 64, 128 + n % 64]
  else [240 + n / 262144, 128 + n / 4096 % 64, 128 + n / 64 % 64, 128 + n % 64]

/-- UTF-8 bytes of a string. -/
def strBytes (s : String) : List Nat :=
  s.data.foldr (fun c acc => utf8Encode c ++ acc) []

/-- Right rotation of a 32-bit word. -/
def rotr (n x : Nat) : Nat :=
  ((x >>> n) ||| (x <<< (32 - n))) % 2 ^ 32

def smallSigma0 (x : Nat) : Nat := (rotr 7 x) ^^^ (rotr 18 x) ^^^ (x >>> 3)

def smallSigma1 (x : Nat) : Nat := (rotr 17 x) ^^^ (rotr 19 x) ^^^ (x >>> 10)

def bigSigma0 (x : Nat) : Nat := (rotr 2 x) ^^^ (rotr 13 x) ^^^ (rotr 22 x)

def bigSigma1 (x : Nat) : Nat := (rotr 6 x) ^^^ (rotr 11 x) ^^^ (rotr 25 x)

def chooseFn (x y z : Nat) : Nat := (x &&& y) ^^^ ((x ^^^ (2 ^ 32 - 1)) &&& z)

def majFn (x y z : Nat) : Nat := (x &&& y) ^^^ (x &&& z) ^^^ (y &&& z)

/-- The SHA-256 round constants (FIPS 180-4, written in decimal). -/
def sha256K : List Nat :=
  [1116352408, 1899447441, 3049323471, 3921009573,
   961987163, 1508970993, 2453635748, 2870763221,
   3624381080, 310598401, 607225278, 1426881987,
   1925078388, 2162078206, 2614888103, 3248222580,
   3835390401, 4022224774, 264347078, 604807628,
   770255983, 1249150122, 1555081692, 1996064986,
   2554220882, 2821834349, 2952996808, 3210313671,
   3336571891, 3584528711, 113926993, 338241895,
   666307205, 773529912, 1294757372, 1396182291,
   1695183700, 1986661051, 2177026350, 2456956037,
   2730485921, 2820302411, 3259730800, 3345764771,
   3516065817, 3600352804, 4094571909, 275423344,
   430227734, 506948616, 659060556, 883997877,
   958139571, 1322822218, 1537002063, 1747873779,
   1955562222, 2024104815, 2227730452, 2361852424,
   2428436474, 2756734187, 3204031479, 3329325298]

/-- Eight 32-bit words: the hash value and the compression working state. -/
structure Hash8 where
  a : Nat
  b : Nat
  c : Nat
  d : Nat
  e : Nat
  f : Nat
  g : Nat
  hh : Nat
deriving DecidableEq, Repr

/-- Initial SHA-256 hash value. -/
def sha256Init : Hash8 :=
  ⟨1779033703, 3144134277, 1013904242, 2773480762,
   1359893119, 2600822924, 528734635, 1541459225⟩

/-- One compression round; `kw` is `(K[i] + W[i]) % 2 ^ 32`. -/
def sha256Round (s : Hash8) (kw : Nat) : Hash8 :=
  let t1 := (s.hh + bigSigma1 s.e + chooseFn s.e s.f s.g + kw) % 2 ^ 32
  let t2 := (bigSigma0 s.a + majFn s.a s.b s.c) % 2 ^ 32
  ⟨(t1 + t2) % 2 ^ 32, s.a, s.b, s.c, (s.d + t1) % 2 ^ 32, s.e, s.f, s.g⟩

/-- The sixteen big-endian 32-bit words of a 64-byte block. -/
def wordsOfBytes : List Nat → List Nat
  | b0 :: b1 :: b2 :: b3 :: rest =>
    (((b0 * 256 + b1) * 256 + b2) * 256 + b3) :: wordsOfBytes rest
  | _ => []

/-- Extend the sixteen-word schedule by `n` further words. -/
def extendSchedule (w : List Nat) : Nat → List Nat
  | 0 => w
  | n + 1 =>
    let w2 := extendSchedule w n
    let len := w2.length
    w2 ++ [(smallSigma1 (w2.getD (len - 2) 0) + w2.getD (len - 7) 0 +
            smallSigma0 (w2.getD (len - 15) 0) + w2.getD (len - 16) 0) % 2 ^ 32]

/-- Compress one 64-byte block into the running hash value. -/
def compressBlock (H : Hash8) (block : List Nat) : Hash8 :=
  let ws := extendSchedule (wordsOfBytes block) 48
  let kws := List.zipWith (fun k w => (k + w) % 2 ^ 32) sha256K ws
  let s := kws.foldl sha256Round H
  ⟨(H.a + s.a) % 2 ^ 32, (H.b + s.b) % 2 ^ 32, (H.c + s.c) % 2 ^ 32,
   (H.d + s.d) % 2 ^ 32, (H.e + s.e) % 2 ^ 32, (H.f + s.f) % 2 ^ 32,
   (H.g + s.g) % 2 ^ 32, (H.hh + s.hh) % 2 ^ 32⟩

/-- The eight big-endian bytes of the 64-bit message bit length. -/
def beBytes8 (n : Nat) : List Nat :=
  [n / 2 ^ 56 % 256, n / 2 ^ 48 % 256, n / 2 ^ 40 % 256, n / 2 ^ 32 % 256,
   n / 2 ^ 24 % 256, n / 2 ^ 16 % 256, n / 2 ^ 8 % 256, n % 256]

/-- SHA-256 padding: `0x80`, zeros to 56 mod 64, then the bit length. -/
def padMessage (msg : List Nat) : List Nat :=
  msg ++ 128 :: List.replicate ((64 - (msg.length + 9) % 64) % 64) 0 ++
    beBytes8 (msg.length * 8)

/-- Cut a byte list into 64-byte blocks (`fuel` bounds the recursion). -/
def chunks64 : Nat → List Nat → List (List Nat)
  | _, [] => []
  | 0, _ => []
  | fuel + 1, l => l.take 64 :: chunks64 fuel (l.drop 64)

/-- The SHA-256 hash value of a byte list, as eight words. -/
def sha256Words (msg : List Nat) : Hash8 :=
  (chunks64 (padMessage msg).length (padMessage msg)).foldl compressBlock sha256Init

/-- The four big-endian bytes of a 32-bit word. -/
def be4 (w : Nat) : List Nat :=
  [w / 2 ^ 24 % 256, w / 2 ^ 16 % 256, w / 2 ^ 8 % 256, w % 256]

/-- The 32-byte SHA-256 digest of a byte list (the model of
`new Uint8Array(hashBuffer)`). -/
def sha256Bytes (msg : List Nat) : List Nat :=
  be4 (sha256Words msg).a ++ be4 (sha256Words msg).b ++ be4 (sha256Words msg).c ++
  be4 (sha256Words msg).d ++ be4 (sha256Words msg).e ++ be4 (sha256Words msg).f ++
  be4 (sha256Words msg).g ++ be4 (sha256Words msg).hh

/-- Model of `b.toString(16).padStart(2, '0')`: lowercase hexadecimal
digits, left-padded with `0` to two characters. -/
def byteToHex (b : Nat) : List Char :=
  let ds := Nat.toDigits 16 b
  if ds.length < 2 then List.replicate (2 - ds.length) '0' ++ ds else ds

/-- Model of `hashArray.map(b => ...).join('')`. -/
def hexConcat (l : List Nat) : List Char :=
  l.foldr (fun b acc => byteToHex b ++ acc) []

/-- `generateVisitorHash` from `src/index.ts`: SHA-256 of the UTF-8
bytes of `ip + ":" + userAgent`, rendered as lowercase hex. -/
def generateVisitorHash (ip userAgent : String) : String :=
  String.mk (hexConcat (sha256Bytes (strBytes (ip ++ ":" ++ userAgent))))

example :
    String.mk (hexConcat (sha256Bytes [])) =
      "e3b0c44298fc1c149afbf4c8996fb92427ae41e4649b934ca495991b7852b855" := by decide

example :
    String.mk (hexConcat (sha256Bytes (strBytes "abc"))) =
      "ba7816bf8f01cfea414140de5dae2223b00361a396177a9cb410ff61f20015ad" := by decide

/-! ## The D1 store and the tracking operations

`migrations/0001_init.sql` creates `visitors(site_origin, visitor_hash,
visit_count, ..., UNIQUE(site_origin, visitor_hash))` and
`site_stats(site_origin PRIMARY KEY, uv, pv, ...)`.  Tables are lists of
rows; `SELECT ... first()` is `List.find?`, `INSERT` appends a row, and
`UPDATE ... WHERE` maps the assignment over the rows the `WHERE` clause
selects. -/

/-- A row of the `visitors` table. -/
structure VisitorRow where
  site_origin : String
  visitor_hash : String
  visit_count : Nat
deriving DecidableEq, Repr

/-- A row of the `site_stats` table. -/
structure SiteStatsRow where
  site_origin : String
  uv : Nat
  pv : Nat
deriving DecidableEq, Repr

/-- The persistent state: both tables. -/
structure DB where
  visitors : List VisitorRow
  site_stats : List SiteStatsRow
deriving DecidableEq, Repr

/-- The store after the migration and before any visit. -/
def emptyDB : DB := ⟨[], []⟩

/-- The `WHERE site_origin = ? AND visitor_hash = ?` condition. -/
def visitorMatch (siteOrigin visitorHash : String) (r : VisitorRow) : Bool :=
  r.site_origin == siteOrigin && r.visitor_hash == visitorHash

/-- The `UPDATE visitors SET visit_count = visit_count + 1 WHERE ...`
assignment applied to one row. -/
def bumpVisit (siteOrigin visitorHash : String) (r : VisitorRow) : VisitorRow :=
  if visitorMatch siteOrigin visitorHash r then
    { r with visit_count := r.visit_count + 1 }
  else r

/-- The `UPDATE site_stats SET uv = uv + ?, pv = pv + 1 WHERE
site_origin = ?` assignment applied to one row. -/
def bumpStats (siteOrigin : String) (uvInc : Nat) (s : SiteStatsRow) : SiteStatsRow :=
  if s.site_origin == siteOrigin then
    { s with uv := s.uv + uvInc, pv := s.pv + 1 }
  else s

/-- `trackVisitor` from `src/index.ts`: look the visitor up, insert or
bump the visitor row, then insert `(uv, pv) = (1, 1)` or bump the
`site_stats` row, and return the post-update counters. -/
def trackVisitor (db : DB) (siteOrigin visitorHash : String) : DB × Nat × Nat :=
  let visitor := db.visitors.find? (visitorMatch siteOrigin visitorHash)
  let isNewVisitor := visitor.isNone
  let visitors2 :=
    if isNewVisitor then db.visitors ++ [⟨siteOrigin, visitorHash, 1⟩]
    else db.visitors.map (bumpVisit siteOrigin visitorHash)
  match db.site_stats.find? (fun s => s.site_origin == siteOrigin) with
  | none =>
    (⟨visitors2, db.site_stats ++ [⟨siteOrigin, 1, 1⟩]⟩, 1, 1)
  | some s =>
    let uvInc := if isNewVisitor then 1 else 0
    (⟨visitors2, db.site_stats.map (bumpStats siteOrigin uvInc)⟩,
     s.uv + uvInc, s.pv + 1)

/-- `getStats` from `src/index.ts`: `SELECT uv, pv FROM site_stats WHERE
site_origin = ?`, `none` when no row exists. -/
def getStats (db : DB) (siteOrigin : String) : Option (Nat × Nat) :=
  (db.site_stats.find? (fun s => s.site_origin == siteOrigin)).map
    (fun s => (s.uv, s.pv))

/-- A sequence of sequential `trackVisitor` calls, each a
`(siteOrigin, visitorHash)` pair. -/
def runTrack (db : DB) (calls : List (String × String)) : DB :=
  calls.foldl (fun d c => (trackVisitor d c.1 c.2).1) db

/-- The one storage failure a claim mentions. -/
inductive DBError where
  | uniqueViolation : DBError
deriving DecidableEq, Repr

/-- `trackVisitor` with its error path made explicit.  `raceInsert = true`
means a concurrent request created the `(siteOrigin, visitorHash)` row
between the `SELECT` and the `INSERT`, so the `INSERT` raises the
`UNIQUE(site_origin, visitor_hash)` violation; the `catch` block in
`src/index.ts` logs the error and rethrows it (`throw error`), so the
call surfaces the error instead of taking the update path.  With
`raceInsert = false` no statement fails and the call behaves as
`trackVisitor`. -/
def trackVisitorE (db : DB) (siteOrigin visitorHash : String) (raceInsert : Bool) :
    Except DBError (DB × Nat × Nat) :=
  match db.visitors.find? (visitorMatch siteOrigin visitorHash) with
  | none =>
    if raceInsert then Except.error DBError.uniqueViolation
    else Except.ok (trackVisitor db siteOrigin visitorHash)
  | some _ => Except.ok (trackVisitor db siteOrigin visitorHash)

/-! ## The request handlers around the core -/

/-- Outcome of `GET /stats`. -/
inductive StatsResult where
  | ok : Nat → Nat → StatsResult
  | missingSite : StatsResult
deriving DecidableEq, Repr

/-- The `/stats` handler from `src/index.ts`: 400 when the `site` query
parameter is missing; otherwise `getStats`, with `none` answered as
`{uv: 0, pv: 0}` on status 200. -/
def handleStats (db : DB) (site : Option String) : DB × StatsResult :=
  match site with
  | none => (db, StatsResult.missingSite)
  | some s =>
    match getStats db s with
    | none => (db, StatsResult.ok 0 0)
    | some (uv, pv) => (db, StatsResult.ok uv pv)

example :
    trackVisitor emptyDB "https://s" "ha" =
      (⟨[⟨"https://s", "ha", 1⟩], [⟨"https://s", 1, 1⟩]⟩, 1, 1) := by decide

example :
    trackVisitor ⟨[⟨"https://s", "ha", 1⟩], [⟨"https://s", 1, 1⟩]⟩ "https://s" "ha" =
      (⟨[⟨"https://s", "ha", 2⟩], [⟨"https://s", 1, 2⟩]⟩, 1, 2) := by decide

example :
    trackVisitor ⟨[⟨"https://s", "ha", 2⟩], [⟨"https://s", 1, 2⟩]⟩ "https://s" "hb" =
      (⟨[⟨"https://s", "ha", 2⟩, ⟨"https://s", "hb", 1⟩], [⟨"https://s", 2, 3⟩]⟩, 2, 3) := by decide

example : getStats emptyDB "https://never-visited.example" = none := by decide

example : handleStats emptyDB (some "https://never-visited.example") =
    (emptyDB, StatsResult.ok 0 0) := by decide

/-! ## Derived views of the store -/

/-- The `(site_origin, visitor_hash)` key of every visitor row, in table
order; the schema declares `UNIQUE(site_origin, visitor_hash)` on it. -/
def pairsOfV (l : List VisitorRow) : List (String × String) :=
  l.map (fun r => (r.site_origin, r.visitor_hash))

/-- The visitor rows of one site. -/
def rowsFor (db : DB) (site : String) : List VisitorRow :=
  db.visitors.filter (fun r => r.site_origin == site)

/-- How many of the calls in a sequence target one site. -/
def countSite (calls : List (String × String)) (site : String) : Nat :=
  (calls.filter (fun c => c.1 == site)).length

lemma visitorMatch_iff (site v : String) (r : VisitorRow) :
    visitorMatch site v r = true ↔ r.site_origin = site ∧ r.visitor_hash = v := by
  simp [visitorMatch]

lemma bumpVisit_site_origin (site v : String) (r : VisitorRow) :
    (bumpVisit site v r).site_origin = r.site_origin := by
  unfold bumpVisit; split <;> rfl

lemma bumpVisit_visitor_hash (site v : String) (r : VisitorRow) :
    (bumpVisit site v r).visitor_hash = r.visitor_hash := by
  unfold bumpVisit; split <;> rfl

lemma bumpVisit_count_le (site v : String) (r : VisitorRow) :
    r.visit_count ≤ (bumpVisit site v r).visit_count := by
  unfold bumpVisit; split <;> simp

lemma bumpStats_site_origin (site : String) (inc : Nat) (s : SiteStatsRow) :
    (bumpStats site inc s).site_origin = s.site_origin := by
  unfold bumpStats; split <;> rfl

lemma mem_pairsOfV (l : List VisitorRow) (site v : String) :
    (site, v) ∈ pairsOfV l ↔ ∃ r ∈ l, r.site_origin = site ∧ r.visitor_hash = v := by
  simp [pairsOfV, Prod.ext_iff, and_comm, eq_comm]

lemma pairsOfV_append (l1 l2 : List VisitorRow) :
    pairsOfV (l1 ++ l2) = pairsOfV l1 ++ pairsOfV l2 := by
  simp [pairsOfV]

lemma pairsOfV_map_bumpVisit (l : List VisitorRow) (site v : String) :
    pairsOfV (l.map (bumpVisit site v)) = pairsOfV l := by
  unfold pairsOfV
  rw [List.map_map]
  refine List.map_congr_left fun r _ => ?_
  simp [Function.comp, bumpVisit_site_origin, bumpVisit_visitor_hash]

lemma find?_visitorMatch_eq_none_iff (l : List VisitorRow) (site v : String) :
    l.find? (visitorMatch site v) = none ↔ (site, v) ∉ pairsOfV l := by
  rw [List.find?_eq_none, mem_pairsOfV]
  constructor
  · rintro h ⟨r, hr, h1, h2⟩
    exact h r hr ((visitorMatch_iff site v r).mpr ⟨h1, h2⟩)
  · intro h r hr hm
    obtain ⟨h1, h2⟩ := (visitorMatch_iff site v r).mp hm
    exact h ⟨r, hr, h1, h2⟩

lemma find?_visitorMatch_some (l : List VisitorRow) (site v : String) (r : VisitorRow)
    (h : l.find? (visitorMatch site v) = some r) :
    r ∈ l ∧ r.site_origin = site ∧ r.visitor_hash = v :=
  ⟨List.mem_of_find?_eq_some h, (visitorMatch_iff site v r).mp (List.find?_some h)⟩

lemma rowsFilter_map_bumpVisit (l : List VisitorRow) (site v q : String) :
    (l.map (bumpVisit site v)).filter (fun r => r.site_origin == q)
      = (l.filter (fun r => r.site_origin == q)).map (bumpVisit site v) := by
  rw [List.filter_map]
  congr 1
  refine List.filter_congr fun r _ => ?_
  simp [Function.comp, bumpVisit_site_origin]

lemma sum_counts_map_bumpVisit (l : List VisitorRow) (site v : String) :
    ((l.map (bumpVisit site v)).map VisitorRow.visit_count).sum
      = (l.map VisitorRow.visit_count).sum + l.countP (visitorMatch site v) := by
  induction l with
  | nil => rfl
  | cons r t ih =>
    simp only [List.map_cons, List.sum_cons, List.countP_cons, ih]
    by_cases h : visitorMatch site v r = true
    · simp [bumpVisit, h]; omega
    · simp [bumpVisit, h]; omega

lemma countP_visitorMatch_eq_one (l : List VisitorRow) (site v : String)
    (hnd : (pairsOfV l).Nodup) (hmem : (site, v) ∈ pairsOfV l) :
    l.countP (visitorMatch site v) = 1 := by
  induction l with
  | nil => simp [pairsOfV] at hmem
  | cons r t ih =>
    have hpc : pairsOfV (r :: t) = (r.site_origin, r.visitor_hash) :: pairsOfV t := rfl
    rw [hpc, List.nodup_cons] at hnd
    rw [hpc, List.mem_cons] at hmem
    by_cases h : visitorMatch site v r = true
    · obtain ⟨h1, h2⟩ := (visitorMatch_iff site v r).mp h
      rw [List.countP_cons_of_pos _ _ h]
      have hz : t.countP (visitorMatch site v) = 0 := by
        rw [List.countP_eq_zero]
        intro r2 hr2 hm2
        obtain ⟨g1, g2⟩ := (visitorMatch_iff site v r2).mp hm2
        refine hnd.1 ?_
        have : (r.site_origin, r.visitor_hash) = (r2.site_origin, r2.visitor_hash) := by
          rw [h1, h2, g1, g2]
        rw [this]
        exact List.mem_map_of_mem _ hr2
      omega
    · rw [List.countP_cons_of_neg _ _ h]
      refine ih hnd.2 ?_
      rcases hmem with he | hm
      · injection he with e1 e2
        exact absurd ((visitorMatch_iff site v r).mpr ⟨e1.symm, e2.symm⟩) h
      · exact hm

lemma length_le_sum_counts (l : List VisitorRow) (h : ∀ r ∈ l, 1 ≤ r.visit_count) :
    l.length ≤ (l.map VisitorRow.visit_count).sum := by
  induction l with
  | nil => simp
  | cons r t ih =>
    simp only [List.length_cons, List.map_cons, List.sum_cons]
    have h1 := h r (by simp)
    have h2 := ih (fun x hx => h x (by simp [hx]))
    omega

lemma find?_pred_congr {α : Type} (l : List α) (p q : α → Bool)
    (h : ∀ a ∈ l, p a = q a) : l.find? p = l.find? q := by
  induction l with
  | nil => rfl
  | cons a t ih =>
    have ha := h a (by simp)
    by_cases hp : p a = true
    · rw [List.find?_cons_of_pos _ hp, List.find?_cons_of_pos _ (ha ▸ hp)]
    · rw [List.find?_cons_of_neg _ hp, List.find?_cons_of_neg _ (ha ▸ hp)]
      exact ih fun x hx => h x (List.mem_cons_of_mem _ hx)

lemma find?_siteStats_of_nodup (l : List SiteStatsRow)
    (hnd : (l.map SiteStatsRow.site_origin).Nodup) (s : SiteStatsRow) (hmem : s ∈ l) :
    l.find? (fun t => t.site_origin == s.site_origin) = some s := by
  induction l with
  | nil => cases hmem
  | cons t ts ih =>
    rw [List.map_cons, List.nodup_cons] at hnd
    rcases List.mem_cons.mp hmem with rfl | hmem2
    · exact List.find?_cons_of_pos _ (by simp)
    · have hne : (t.site_origin == s.site_origin) = false := by
        rw [beq_eq_false_iff_ne]
        intro he
        exact hnd.1 (he ▸ List.mem_map_of_mem _ hmem2)
      rw [List.find?_cons_of_neg _ (by simp [hne])]
      exact ih hnd.2 hmem2

lemma find?_map_bumpStats (l : List SiteStatsRow) (site : String) (inc : Nat) (q : String) :
    (l.map (bumpStats site inc)).find? (fun s => s.site_origin == q)
      = (l.find? (fun s => s.site_origin == q)).map (bumpStats site inc) := by
  rw [List.find?_map]
  congr 1
  refine find?_pred_congr l _ _ fun s _ => ?_
  simp [Function.comp, bumpStats_site_origin]

/-! ### The four shapes of one `trackVisitor` call -/

lemma trackVisitor_new_noStats (db : DB) (site v : String)
    (h1 : db.visitors.find? (visitorMatch site v) = none)
    (h2 : db.site_stats.find? (fun s => s.site_origin == site) = none) :
    trackVisitor db site v =
      (⟨db.visitors ++ [⟨site, v, 1⟩], db.site_stats ++ [⟨site, 1, 1⟩]⟩, 1, 1) := by
  simp [trackVisitor, h1, h2]

lemma trackVisitor_new_stats (db : DB) (site v : String) (s : SiteStatsRow)
    (h1 : db.visitors.find? (visitorMatch site v) = none)
    (h2 : db.site_stats.find? (fun t => t.site_origin == site) = some s) :
    trackVisitor db site v =
      (⟨db.visitors ++ [⟨site, v, 1⟩], db.site_stats.map (bumpStats site 1)⟩,
       s.uv + 1, s.pv + 1) := by
  simp [trackVisitor, h1, h2]

lemma trackVisitor_old_stats (db : DB) (site v : String) (r : VisitorRow) (s : SiteStatsRow)
    (h1 : db.visitors.find? (visitorMatch site v) = some r)
    (h2 : db.site_stats.find? (fun t => t.site_origin == site) = some s) :
    trackVisitor db site v =
      (⟨db.visitors.map (bumpVisit site v), db.site_stats.map (bumpStats site 0)⟩,
       s.uv, s.pv + 1) := by
  simp [trackVisitor, h1, h2]

lemma trackVisitor_old_noStats (db : DB) (site v : String) (r : VisitorRow)
    (h1 : db.visitors.find? (visitorMatch site v) = some r)
    (h2 : db.site_stats.find? (fun s => s.site_origin == site) = none) :
    trackVisitor db site v =
      (⟨db.visitors.map (bumpVisit site v), db.site_stats ++ [⟨site, 1, 1⟩]⟩, 1, 1) := by
  simp [trackVisitor, h1, h2]

lemma stats_origins_map_bumpStats (l : List SiteStatsRow) (site : String) (inc : Nat) :
    (l.map (bumpStats site inc)).map SiteStatsRow.site_origin
      = l.map SiteStatsRow.site_origin := by
  rw [List.map_map]
  refine List.map_congr_left fun s _ => ?_
  simp [Function.comp, bumpStats_site_origin]

lemma countSite_append_single (calls : List (String × String)) (site v q : String) :
    countSite (calls ++ [(site, v)]) q
      = countSite calls q + if site = q then 1 else 0 := by
  by_cases h : site = q
  · subst h
    simp [countSite, List.filter_append, List.filter_cons]
  · have hb : (site == q) = false := beq_eq_false_iff_ne.mpr h
    simp [countSite, List.filter_append, List.filter_cons, hb, h]

lemma filter_rows_append_single (V : List VisitorRow) (site v q : String) :
    (V ++ [(⟨site, v, 1⟩ : VisitorRow)]).filter (fun r => r.site_origin == q)
      = V.filter (fun r => r.site_origin == q)
        ++ if site = q then [⟨site, v, 1⟩] else [] := by
  by_cases h : site = q
  · subst h
    simp [List.filter_append, List.filter_cons]
  · have hb : (site == q) = false := beq_eq_false_iff_ne.mpr h
    simp [List.filter_append, List.filter_cons, hb, h]

/-! ## The reachability invariant

Everything `trackVisitor` maintains about the store, stated for the
store reached by any sequence of sequential calls from the empty store:
the visitor keys are pairwise distinct and are exactly the keys of the
calls made so far, the per-site visit counts sum to the number of calls
to the site, and every `site_stats` row records exactly the number of
visitor rows of its site (`uv`) and the number of calls to it (`pv`). -/
def Inv (calls : List (String × String)) (db : DB) : Prop :=
  (pairsOfV db.visitors).Nodup
  ∧ (∀ p : String × String, p ∈ pairsOfV db.visitors ↔ p ∈ calls)
  ∧ (∀ site : String,
      ((rowsFor db site).map VisitorRow.visit_count).sum = countSite calls site)
  ∧ (db.site_stats.map SiteStatsRow.site_origin).Nodup
  ∧ (∀ s ∈ db.site_stats,
      s.uv = (rowsFor db s.site_origin).length ∧ s.pv = countSite calls s.site_origin)
  ∧ (∀ site : String,
      (∃ s ∈ db.site_stats, s.site_origin = site) ↔ site ∈ calls.map Prod.fst)
  ∧ (∀ r ∈ db.visitors, 1 ≤ r.visit_count)

lemma Inv_empty : Inv [] emptyDB := by
  unfold Inv
  refine ⟨?_, ?_, ?_, ?_, ?_, ?_, ?_⟩ <;> simp [pairsOfV, rowsFor, countSite, emptyDB]

lemma Inv_step (calls : List (String × String)) (db : DB) (site v : String)
    (hinv : Inv calls db) :
    Inv (calls ++ [(site, v)]) (trackVisitor db site v).1 := by
  obtain ⟨hnd, hpairs, hsum, hsnd, hstats, hsites, hcnt⟩ := hinv
  cases h1 : db.visitors.find? (visitorMatch site v) with
  | none =>
    have hpnot : (site, v) ∉ pairsOfV db.visitors :=
      (find?_visitorMatch_eq_none_iff _ _ _).mp h1
    -- the visitor-table conjuncts, shared by both stats branches
    have hG1 : (pairsOfV (db.visitors ++ [⟨site, v, 1⟩])).Nodup := by
      rw [pairsOfV_append, List.nodup_append]
      refine ⟨hnd, List.nodup_singleton _, ?_⟩
      intro p hp hq
      have : p = (site, v) := by simpa [pairsOfV] using hq
      exact hpnot (this ▸ hp)
    have hG2 : ∀ p : String × String,
        p ∈ pairsOfV (db.visitors ++ [⟨site, v, 1⟩]) ↔ p ∈ calls ++ [(site, v)] := by
      intro p
      rw [pairsOfV_append, List.mem_append, List.mem_append, hpairs p]
      simp [pairsOfV]
    have hG3 : ∀ q : String,
        (((db.visitors ++ [(⟨site, v, 1⟩ : VisitorRow)]).filter
            (fun r => r.site_origin == q)).map VisitorRow.visit_count).sum
          = countSite (calls ++ [(site, v)]) q := by
      intro q
      rw [filter_rows_append_single, countSite_append_single, List.map_append,
        List.sum_append]
      have base := hsum q
      rw [rowsFor] at base
      by_cases hq : site = q <;> simp [hq, base]
    have hG7 : ∀ r ∈ db.visitors ++ [(⟨site, v, 1⟩ : VisitorRow)], 1 ≤ r.visit_count := by
      intro r hr
      rcases List.mem_append.mp hr with h | h
      · exact hcnt r h
      · have : r = ⟨site, v, 1⟩ := by simpa using h
        rw [this]
    cases h2 : db.site_stats.find? (fun s => s.site_origin == site) with
    | none =>
      rw [trackVisitor_new_noStats db site v h1 h2]
      have hnosite : ∀ s ∈ db.site_stats, s.site_origin ≠ site := by
        intro s hs
        have := List.find?_eq_none.mp h2 s hs
        simpa using this
      have hsitesnot : site ∉ calls.map Prod.fst := by
        intro hmem
        obtain ⟨s, hs, hso⟩ := (hsites site).mpr hmem
        exact hnosite s hs hso
      have hrows0 : db.visitors.filter (fun r => r.site_origin == site) = [] := by
        rw [List.filter_eq_nil_iff]
        intro r hr hbeq
        have hro : r.site_origin = site := by simpa using hbeq
        have hc : (r.site_origin, r.visitor_hash) ∈ calls :=
          (hpairs _).mp (List.mem_map_of_mem _ hr)
        refine hsitesnot ?_
        rw [← hro]
        exact List.mem_map_of_mem Prod.fst hc
      have hcount0 : countSite calls site = 0 := by
        rw [countSite, List.length_eq_zero, List.filter_eq_nil_iff]
        intro c hc hbeq
        have : c.1 = site := by simpa using hbeq
        exact hsitesnot (this ▸ List.mem_map_of_mem Prod.fst hc)
      unfold Inv
      refine ⟨hG1, hG2, hG3, ?_, ?_, ?_, hG7⟩
      · rw [List.map_append, List.nodup_append]
        refine ⟨hsnd, by simp, ?_⟩
        intro q hq hq2
        have : q = site := by simpa using hq2
        subst this
        obtain ⟨s, hs, hso⟩ := List.mem_map.mp hq
        exact hnosite s hs hso
      · intro s hs
        rcases List.mem_append.mp hs with h | h
        · have hne : s.site_origin ≠ site := hnosite s h
          rw [rowsFor, filter_rows_append_single, countSite_append_single]
          have hins : ¬ site = s.site_origin := fun he => hne he.symm
          simp only [hins, if_false, List.append_nil]
          exact (hstats s h).imp (fun e => by rw [rowsFor] at e; exact e) (fun e => by omega)
        · have : s = ⟨site, 1, 1⟩ := by simpa using h
          subst this
          constructor
          · rw [rowsFor, filter_rows_append_single]
            simp [hrows0]
          · rw [countSite_append_single]
            simp [hcount0]
      · intro q
        rw [List.map_append, List.mem_append]
        constructor
        · rintro ⟨s, hs, hso⟩
          rcases List.mem_append.mp hs with h | h
          · exact Or.inl ((hsites q).mp ⟨s, h, hso⟩)
          · have : s = ⟨site, 1, 1⟩ := by simpa using h
            subst this
            right
            simpa using hso.symm
        · rintro (h | h)
          · obtain ⟨s, hs, hso⟩ := (hsites q).mpr h
            exact ⟨s, List.mem_append_left _ hs, hso⟩
          · have he : q = site := by simpa using h
            exact ⟨⟨site, 1, 1⟩, List.mem_append_right _ (by simp), he.symm⟩
    | some s0 =>
      rw [trackVisitor_new_stats db site v s0 h1 h2]
      have hs0mem : s0 ∈ db.site_stats := List.mem_of_find?_eq_some h2
      have hs0site : s0.site_origin = site := by
        have := List.find?_some h2
        simpa using this
      unfold Inv
      refine ⟨hG1, hG2, hG3, ?_, ?_, ?_, hG7⟩
      · rw [stats_origins_map_bumpStats]
        exact hsnd
      · intro s hs
        obtain ⟨t, ht, rfl⟩ := List.mem_map.mp hs
        rw [bumpStats_site_origin]
        obtain ⟨huv, hpv⟩ := hstats t ht
        rw [rowsFor] at huv
        by_cases hts : t.site_origin = site
        · have hbump : bumpStats site 1 t = ⟨t.site_origin, t.uv + 1, t.pv + 1⟩ := by
            simp [bumpStats, hts]
          rw [hbump]
          constructor
          · rw [rowsFor, filter_rows_append_single]
            simp [hts, huv]
          · rw [countSite_append_single]
            simp [hts, hpv]
        · have hbump : bumpStats site 1 t = t := by
            simp [bumpStats, fun h => hts (by simpa using h)]
          rw [hbump]
          constructor
          · rw [rowsFor, filter_rows_append_single]
            have : ¬ site = t.site_origin := fun he => hts he.symm
            simp [this, huv]
          · rw [countSite_append_single]
            have : ¬ site = t.site_origin := fun he => hts he.symm
            simp [this, hpv]
      · intro q
        rw [List.map_append, List.mem_append]
        constructor
        · rintro ⟨s, hs, hso⟩
          obtain ⟨t, ht, rfl⟩ := List.mem_map.mp hs
          rw [bumpStats_site_origin] at hso
          exact Or.inl ((hsites q).mp ⟨t, ht, hso⟩)
        · rintro (h | h)
          · obtain ⟨t, ht, hso⟩ := (hsites q).mpr h
            exact ⟨bumpStats site 1 t, List.mem_map_of_mem _ ht,
              by rw [bumpStats_site_origin]; exact hso⟩
          · have : q = site := by simpa using h
            subst this
            exact ⟨bumpStats q 1 s0, List.mem_map_of_mem _ hs0mem,
              by rw [bumpStats_site_origin]; exact hs0site⟩
  | some r0 =>
    obtain ⟨hr0mem, hr0site, hr0hash⟩ := find?_visitorMatch_some _ _ _ _ h1
    have hpmem : (site, v) ∈ pairsOfV db.visitors :=
      (mem_pairsOfV _ _ _).mpr ⟨r0, hr0mem, hr0site, hr0hash⟩
    have hcallmem : (site, v) ∈ calls := (hpairs _).mp hpmem
    have hsitemem : site ∈ calls.map Prod.fst := by
      have := List.mem_map_of_mem Prod.fst hcallmem
      simpa using this
    cases h2 : db.site_stats.find? (fun s => s.site_origin == site) with
    | none =>
      exfalso
      obtain ⟨s, hs, hso⟩ := (hsites site).mpr hsitemem
      have := List.find?_eq_none.mp h2 s hs
      simp [hso] at this
    | some s0 =>
      rw [trackVisitor_old_stats db site v r0 s0 h1 h2]
      have hs0mem : s0 ∈ db.site_stats := List.mem_of_find?_eq_some h2
      have hs0site : s0.site_origin = site := by
        have := List.find?_some h2
        simpa using this
      unfold Inv
      refine ⟨?_, ?_, ?_, ?_, ?_, ?_, ?_⟩
      · rw [pairsOfV_map_bumpVisit]
        exact hnd
      · intro p
        rw [pairsOfV_map_bumpVisit, hpairs p, List.mem_append, List.mem_singleton]
        constructor
        · exact Or.inl
        · rintro (h | rfl)
          · exact h
          · exact hcallmem
      · intro q
        rw [rowsFor, rowsFilter_map_bumpVisit, sum_counts_map_bumpVisit,
          countSite_append_single]
        have base := hsum q
        rw [rowsFor] at base
        by_cases hq : site = q
        · subst hq
          have hone : (db.visitors.filter
              (fun r => r.site_origin == site)).countP (visitorMatch site v) = 1 := by
            refine countP_visitorMatch_eq_one _ site v ?_ ?_
            · refine List.Nodup.sublist ?_ hnd
              exact List.Sublist.map _ (List.filter_sublist _)
            · refine (mem_pairsOfV _ _ _).mpr ⟨r0, ?_, hr0site, hr0hash⟩
              rw [List.mem_filter]
              exact ⟨hr0mem, by simp [hr0site]⟩
          rw [hone, base]
          simp
        · have hzero : (db.visitors.filter
              (fun r => r.site_origin == q)).countP (visitorMatch site v) = 0 := by
            rw [List.countP_eq_zero]
            intro r hr hm
            obtain ⟨g1, _⟩ := (visitorMatch_iff site v r).mp hm
            have : r.site_origin = q := by
              have := (List.mem_filter.mp hr).2
              simpa using this
            exact hq (g1 ▸ this)
          rw [hzero, base]
          simp [hq]
      · rw [stats_origins_map_bumpStats]
        exact hsnd
      · intro s hs
        obtain ⟨t, ht, rfl⟩ := List.mem_map.mp hs
        rw [bumpStats_site_origin]
        obtain ⟨huv, hpv⟩ := hstats t ht
        rw [rowsFor] at huv
        have hlen : ∀ q : String,
            ((db.visitors.map (bumpVisit site v)).filter
              (fun r => r.site_origin == q)).length
              = (db.visitors.filter (fun r => r.site_origin == q)).length := by
          intro q
          rw [rowsFilter_map_bumpVisit, List.length_map]
        by_cases hts : t.site_origin = site
        · have hbump : bumpStats site 0 t = ⟨t.site_origin, t.uv + 0, t.pv + 1⟩ := by
            simp [bumpStats, hts]
          rw [hbump]
          constructor
          · rw [rowsFor, hlen]
            simpa using huv
          · rw [countSite_append_single]
            simp [hts, hpv]
        · have hbump : bumpStats site 0 t = t := by
            simp [bumpStats, fun h => hts (by simpa using h)]
          rw [hbump]
          constructor
          · rw [rowsFor, hlen]
            exact huv
          · rw [countSite_append_single]
            have : ¬ site = t.site_origin := fun he => hts he.symm
            simp [this, hpv]
      · intro q
        rw [List.map_append, List.mem_append]
        constructor
        · rintro ⟨s, hs, hso⟩
          obtain ⟨t, ht, rfl⟩ := List.mem_map.mp hs
          rw [bumpStats_site_origin] at hso
          exact Or.inl ((hsites q).mp ⟨t, ht, hso⟩)
        · rintro (h | h)
          · obtain ⟨t, ht, hso⟩ := (hsites q).mpr h
            exact ⟨bumpStats site 0 t, List.mem_map_of_mem _ ht,
              by rw [bumpStats_site_origin]; exact hso⟩
          · have : q = site := by simpa using h
            subst this
            exact ⟨bumpStats q 0 s0, List.mem_map_of_mem _ hs0mem,
              by rw [bumpStats_site_origin]; exact hs0site⟩
      · intro r hr
        obtain ⟨t, ht, rfl⟩ := List.mem_map.mp hr
        exact le_trans (hcnt t ht) (bumpVisit_count_le site v t)

lemma Inv_runTrack (calls : List (String × String)) :
    Inv calls (runTrack emptyDB calls) := by
  induction calls using List.reverseRecOn with
  | nil => exact Inv_empty
  | append_singleton l c ih =>
    have he : runTrack emptyDB (l ++ [c]) = (trackVisitor (runTrack emptyDB l) c.1 c.2).1 := by
      simp [runTrack]
    rw [he]
    have := Inv_step l (runTrack emptyDB l) c.1 c.2 ih
    simpa using this

lemma trackVisitor_site_stats_none (db : DB) (site v : String)
    (h2 : db.site_stats.find? (fun s => s.site_origin == site) = none) :
    (trackVisitor db site v).1.site_stats = db.site_stats ++ [⟨site, 1, 1⟩] := by
  cases h1 : db.visitors.find? (visitorMatch site v) with
  | none => rw [trackVisitor_new_noStats db site v h1 h2]
  | some r => rw [trackVisitor_old_noStats db site v r h1 h2]

lemma trackVisitor_site_stats_some (db : DB) (site v : String) (s0 : SiteStatsRow)
    (h2 : db.site_stats.find? (fun s => s.site_origin == site) = some s0) :
    ∃ inc : Nat, (trackVisitor db site v).1.site_stats
      = db.site_stats.map (bumpStats site inc) := by
  cases h1 : db.visitors.find? (visitorMatch site v) with
  | none => exact ⟨1, by rw [trackVisitor_new_stats db site v s0 h1 h2]⟩
  | some r => exact ⟨0, by rw [trackVisitor_old_stats db site v r s0 h1 h2]⟩

lemma getStats_trackVisitor_mono (db : DB) (site v q : String) (uv pv : Nat)
    (h : getStats db q = some (uv, pv)) :
    ∃ uv2 pv2, getStats (trackVisitor db site v).1 q = some (uv2, pv2)
      ∧ uv ≤ uv2 ∧ pv ≤ pv2 := by
  obtain ⟨s, hfs, he1, he2⟩ : ∃ s, db.site_stats.find? (fun t => t.site_origin == q) = some s
      ∧ s.uv = uv ∧ s.pv = pv := by
    unfold getStats at h
    cases hf : db.site_stats.find? (fun t => t.site_origin == q) with
    | none => rw [hf] at h; cases h
    | some s =>
      rw [hf] at h
      have hp : (s.uv, s.pv) = (uv, pv) := Option.some.inj h
      exact ⟨s, rfl, congrArg Prod.fst hp, congrArg Prod.snd hp⟩
  cases h2 : db.site_stats.find? (fun t => t.site_origin == site) with
  | none =>
    refine ⟨uv, pv, ?_, le_refl _, le_refl _⟩
    unfold getStats
    rw [trackVisitor_site_stats_none db site v h2, List.find?_append, hfs]
    simp [he1, he2]
  | some s0 =>
    obtain ⟨inc, hshape⟩ := trackVisitor_site_stats_some db site v s0 h2
    refine ⟨(bumpStats site inc s).uv, (bumpStats site inc s).pv, ?_, ?_, ?_⟩
    · unfold getStats
      rw [hshape, find?_map_bumpStats, hfs]
      rfl
    · rw [← he1]
      unfold bumpStats
      split <;> simp
    · rw [← he2]
      unfold bumpStats
      split <;> simp

lemma getStats_of_mem (db : DB) (s : SiteStatsRow)
    (hnd : (db.site_stats.map SiteStatsRow.site_origin).Nodup)
    (hmem : s ∈ db.site_stats) :
    getStats db s.site_origin = some (s.uv, s.pv) := by
  unfold getStats
  rw [find?_siteStats_of_nodup db.site_stats hnd s hmem]
  rfl

lemma rowsFor_hashes_nodup (db : DB) (q : String)
    (hnd : (pairsOfV db.visitors).Nodup) :
    ((rowsFor db q).map VisitorRow.visitor_hash).Nodup := by
  have hsub : List.Sublist (pairsOfV (rowsFor db q)) (pairsOfV db.visitors) :=
    List.Sublist.map _ (List.filter_sublist _)
  have hnd2 : (pairsOfV (rowsFor db q)).Nodup := List.Nodup.sublist hsub hnd
  have heq : (rowsFor db q).map VisitorRow.visitor_hash
      = (pairsOfV (rowsFor db q)).map Prod.snd := by
    simp [pairsOfV, List.map_map, Function.comp]
  rw [heq]
  refine hnd2.map_on ?_
  intro x hx y hy he
  have hfst : ∀ p ∈ pairsOfV (rowsFor db q), p.1 = q := by
    intro p hp
    obtain ⟨r, hr, rfl⟩ := List.mem_map.mp hp
    have := (List.mem_filter.mp hr).2
    simpa using this
  have hx1 := hfst x hx
  have hy1 := hfst y hy
  exact Prod.ext_iff.mpr ⟨hx1.trans hy1.symm, he⟩

/-! ## The claims -/

/-- C1 — Counting law: starting from the empty store, after a sequence of
`N = hs.length` `trackVisitor` calls to one `siteOrigin` whose visitor
hashes are the entries of `hs` (so `K = hs.dedup.length` distinct
hashes), the persisted `site_stats` row of that origin holds exactly
`uv = K` and `pv = N`. -/
theorem C1_counting_law (site : String) (hs : List String) (hne : hs ≠ []) :
    getStats (runTrack emptyDB (hs.map (fun h => (site, h)))) site
      = some (hs.dedup.length, hs.length) := by
  obtain ⟨hnd, hpairs, hsum, hsnd, hstats, hsites, hcnt⟩ :=
    Inv_runTrack (hs.map (fun h => (site, h)))
  have hsm : site ∈ (hs.map (fun h => (site, h))).map Prod.fst := by
    obtain ⟨h0, hh0⟩ := List.exists_mem_of_ne_nil hs hne
    simp only [List.map_map, List.mem_map, Function.comp]
    exact ⟨h0, hh0, trivial⟩
  obtain ⟨s, hsmem, hsorig⟩ := (hsites site).mpr hsm
  have hget : getStats (runTrack emptyDB (hs.map (fun h => (site, h)))) site
      = some (s.uv, s.pv) := by
    have := getStats_of_mem _ s hsnd hsmem
    rwa [hsorig] at this
  rw [hget]
  obtain ⟨huv, hpv⟩ := hstats s hsmem
  rw [hsorig] at huv hpv
  have hpvN : s.pv = hs.length := by
    rw [hpv, countSite, List.filter_eq_self.mpr (by simp), List.length_map]
  have huvK : s.uv = hs.dedup.length := by
    have hndh := rowsFor_hashes_nodup (runTrack emptyDB (hs.map (fun h => (site, h)))) site hnd
    have hmemiff : ∀ x : String,
        x ∈ (rowsFor (runTrack emptyDB (hs.map (fun h => (site, h)))) site).map
          VisitorRow.visitor_hash ↔ x ∈ hs := by
      intro x
      constructor
      · intro hx
        obtain ⟨r, hr, rfl⟩ := List.mem_map.mp hx
        have hrV := (List.mem_filter.mp hr).1
        have hp : (r.site_origin, r.visitor_hash) ∈ hs.map (fun h => (site, h)) :=
          (hpairs _).mp (List.mem_map_of_mem _ hrV)
        obtain ⟨a, ha, hae⟩ := List.mem_map.mp hp
        injection hae with e1 e2
        rw [← e2]
        exact ha
      · intro hx
        have hp : (site, x) ∈ pairsOfV (runTrack emptyDB (hs.map (fun h => (site, h)))).visitors :=
          (hpairs _).mpr (List.mem_map_of_mem _ hx)
        obtain ⟨r, hrV, hr1, hr2⟩ := (mem_pairsOfV _ _ _).mp hp
        refine List.mem_map.mpr ⟨r, ?_, hr2⟩
        rw [rowsFor, List.mem_filter]
        exact ⟨hrV, by simp [hr1]⟩
    have hperm : List.Perm
        ((rowsFor (runTrack emptyDB (hs.map (fun h => (site, h)))) site).map
          VisitorRow.visitor_hash) hs.dedup := by
      refine (List.perm_ext_iff_of_nodup hndh (List.nodup_dedup hs)).mpr ?_
      intro x
      rw [hmemiff x, List.mem_dedup]
    rw [huv, ← List.length_map _ VisitorRow.visitor_hash, hperm.length_eq]
  rw [hpvN, huvK]

theorem C1_counting_law_witness :
    (["h1", "h2", "h1"] : List String) ≠ []
  ∧ getStats (runTrack emptyDB ((["h1", "h2", "h1"] : List String).map
        (fun h => ("https://s/a", h)))) "https://s/a"
      = some ((["h1", "h2", "h1"] : List String).dedup.length,
              (["h1", "h2", "h1"] : List String).length) :=
  ⟨by decide, C1_counting_law "https://s/a" ["h1", "h2", "h1"] (by decide)⟩

/-- C4 — State invariant: in every store reachable by sequential
`trackVisitor` calls from the empty store, every `site_stats` row
satisfies: `uv` is the number of (pairwise distinct) visitor rows of its
origin, `pv` is the sum of their `visit_count`, `pv ≥ uv` (and both are
`Nat`, hence non-negative), and one further arbitrary `trackVisitor`
call never decreases the row's counters. -/
theorem C4_state_invariant (calls : List (String × String)) (s : SiteStatsRow)
    (hmem : s ∈ (runTrack emptyDB calls).site_stats) (site v : String) :
    s.uv = (rowsFor (runTrack emptyDB calls) s.site_origin).length
  ∧ ((rowsFor (runTrack emptyDB calls) s.site_origin).map VisitorRow.visitor_hash).Nodup
  ∧ s.pv = ((rowsFor (runTrack emptyDB calls) s.site_origin).map VisitorRow.visit_count).sum
  ∧ s.uv ≤ s.pv
  ∧ ∃ uv2 pv2,
      getStats (trackVisitor (runTrack emptyDB calls) site v).1 s.site_origin
        = some (uv2, pv2) ∧ s.uv ≤ uv2 ∧ s.pv ≤ pv2 := by
  obtain ⟨hnd, hpairs, hsum, hsnd, hstats, hsites, hcnt⟩ := Inv_runTrack calls
  obtain ⟨huv, hpv⟩ := hstats s hmem
  have hsum2 : s.pv
      = ((rowsFor (runTrack emptyDB calls) s.site_origin).map VisitorRow.visit_count).sum := by
    rw [hpv, ← hsum s.site_origin]
  have hle : s.uv ≤ s.pv := by
    rw [huv, hsum2]
    refine length_le_sum_counts _ ?_
    intro r hr
    exact hcnt r (List.mem_filter.mp hr).1
  exact ⟨huv, rowsFor_hashes_nodup _ s.site_origin hnd, hsum2, hle,
    getStats_trackVisitor_mono _ site v s.site_origin s.uv s.pv
      (getStats_of_mem _ s hsnd hmem)⟩

theorem C4_state_invariant_witness :
    ((⟨"https://s/a", 1, 1⟩ : SiteStatsRow) ∈ (runTrack emptyDB [("https://s/a", "h1")]).site_stats)
  ∧ ((⟨"https://s/a", 1, 1⟩ : SiteStatsRow).uv
        = (rowsFor (runTrack emptyDB [("https://s/a", "h1")])
            (⟨"https://s/a", 1, 1⟩ : SiteStatsRow).site_origin).length
     ∧ ((rowsFor (runTrack emptyDB [("https://s/a", "h1")])
          (⟨"https://s/a", 1, 1⟩ : SiteStatsRow).site_origin).map VisitorRow.visitor_hash).Nodup
     ∧ (⟨"https://s/a", 1, 1⟩ : SiteStatsRow).pv
        = ((rowsFor (runTrack emptyDB [("https://s/a", "h1")])
            (⟨"https://s/a", 1, 1⟩ : SiteStatsRow).site_origin).map VisitorRow.visit_count).sum
     ∧ (⟨"https://s/a", 1, 1⟩ : SiteStatsRow).uv ≤ (⟨"https://s/a", 1, 1⟩ : SiteStatsRow).pv
     ∧ ∃ uv2 pv2,
        getStats (trackVisitor (runTrack emptyDB [("https://s/a", "h1")]) "https://s/a" "h2").1
            (⟨"https://s/a", 1, 1⟩ : SiteStatsRow).site_origin
          = some (uv2, pv2)
          ∧ (⟨"https://s/a", 1, 1⟩ : SiteStatsRow).uv ≤ uv2
          ∧ (⟨"https://s/a", 1, 1⟩ : SiteStatsRow).pv ≤ pv2) :=
  ⟨by decide,
   C4_state_invariant [("https://s/a", "h1")] ⟨"https://s/a", 1, 1⟩ (by decide)
     "https://s/a" "h2"⟩

/-- C3 — `trackVisitor` returns the post-update counters, never a stale
snapshot: on a fresh store the first call for a site returns `(1, 1)`, a
repeat call with the same visitor hash returns `(1, 2)`, and a call with
a new visitor hash returns `(2, 3)`, each time equal to the counters
`getStats` reads back from the store the call produced. -/
theorem C3_returns_post_update (site hA hB : String) (hne : hA ≠ hB) :
    (trackVisitor emptyDB site hA).2 = (1, 1)
  ∧ getStats (trackVisitor emptyDB site hA).1 site = some (1, 1)
  ∧ (trackVisitor (trackVisitor emptyDB site hA).1 site hA).2 = (1, 2)
  ∧ getStats (trackVisitor (trackVisitor emptyDB site hA).1 site hA).1 site = some (1, 2)
  ∧ (trackVisitor (trackVisitor (trackVisitor emptyDB site hA).1 site hA).1 site hB).2 = (2, 3)
  ∧ getStats
      (trackVisitor (trackVisitor (trackVisitor emptyDB site hA).1 site hA).1 site hB).1 site
      = some (2, 3) := by
  have hb : (hA == hB) = false := beq_eq_false_iff_ne.mpr hne
  have e1 : trackVisitor emptyDB site hA = (⟨[⟨site, hA, 1⟩], [⟨site, 1, 1⟩]⟩, 1, 1) := by
    simp [trackVisitor, emptyDB]
  have e2 : trackVisitor (⟨[⟨site, hA, 1⟩], [⟨site, 1, 1⟩]⟩ : DB) site hA
      = (⟨[⟨site, hA, 2⟩], [⟨site, 1, 2⟩]⟩, 1, 2) := by
    simp [trackVisitor, visitorMatch, bumpVisit, bumpStats]
  have e3 : trackVisitor (⟨[⟨site, hA, 2⟩], [⟨site, 1, 2⟩]⟩ : DB) site hB
      = (⟨[⟨site, hA, 2⟩, ⟨site, hB, 1⟩], [⟨site, 2, 3⟩]⟩, 2, 3) := by
    simp [trackVisitor, visitorMatch, bumpVisit, bumpStats, hb]
  rw [e1]
  refine ⟨rfl, by simp [getStats], ?_⟩
  rw [e2]
  refine ⟨rfl, by simp [getStats], ?_⟩
  rw [e3]
  exact ⟨rfl, by simp [getStats]⟩

theorem C3_returns_post_update_witness :
    ("h1" : String) ≠ "h2"
  ∧ ((trackVisitor emptyDB "https://s/a" "h1").2 = (1, 1)
  ∧ getStats (trackVisitor emptyDB "https://s/a" "h1").1 "https://s/a" = some (1, 1)
  ∧ (trackVisitor (trackVisitor emptyDB "https://s/a" "h1").1 "https://s/a" "h1").2 = (1, 2)
  ∧ getStats (trackVisitor (trackVisitor emptyDB "https://s/a" "h1").1 "https://s/a" "h1").1
      "https://s/a" = some (1, 2)
  ∧ (trackVisitor (trackVisitor (trackVisitor emptyDB "https://s/a" "h1").1 "https://s/a" "h1").1
      "https://s/a" "h2").2 = (2, 3)
  ∧ getStats
      (trackVisitor (trackVisitor (trackVisitor emptyDB "https://s/a" "h1").1 "https://s/a" "h1").1
        "https://s/a" "h2").1 "https://s/a" = some (2, 3)) :=
  ⟨by decide, C3_returns_post_update "https://s/a" "h1" "h2" (by decide)⟩

/-- C2 — The deployed `getSiteOrigin` of `src/index.ts` keeps the whole
pathname (`url.origin + url.pathname` minus one trailing slash), so deep
URLs of one project do NOT collapse to the first path segment; the
first-segment behaviour the tests of `src/index.test.ts` (and
`IMPLEMENTATION.md`) specify holds only of the test file's own copy of
the function. -/
theorem C2_first_segment_divergence :
    getSiteOrigin "https://xxx.github.io/yyy/zzz" = some "https://xxx.github.io/yyy/zzz"
  ∧ TestFile.getSiteOrigin "https://xxx.github.io/yyy/zzz" = some "https://xxx.github.io/yyy"
  ∧ TestFile.getSiteOrigin "https://xxx.github.io/yyy/aaa" = some "https://xxx.github.io/yyy"
  ∧ TestFile.getSiteOrigin "https://xxx.github.io/yyy" = some "https://xxx.github.io/yyy"
  ∧ getSiteOrigin "https://xxx.github.io/yyy/zzz" ≠ getSiteOrigin "https://xxx.github.io/yyy" := by
  refine ⟨by decide, by decide, by decide, by decide, by decide⟩

/-- C5 — Trailing-slash normalisation of the deployed `getSiteOrigin`:
the root case holds and one ordinary trailing slash is erased, but
`replace(/\/$/, '')` removes only a single slash of the kept full
pathname, so a path ending in an empty segment keeps a trailing slash
and two URLs differing only in that trailing slash normalise to
different strings; the test file's first-segment version maps both to
the same slash-free origin. -/
theorem C5_trailing_slash_divergence :
    getSiteOrigin "https://h" = getSiteOrigin "https://h/"
  ∧ getSiteOrigin "https://h/a/" = some "https://h/a"
  ∧ getSiteOrigin "https://h/a//" = some "https://h/a/"
  ∧ getSiteOrigin "https://h/a//" ≠ getSiteOrigin "https://h/a/"
  ∧ TestFile.getSiteOrigin "https://h/a//" = some "https://h/a"
  ∧ TestFile.getSiteOrigin "https://h/a//" = TestFile.getSiteOrigin "https://h/a/" := by
  refine ⟨by decide, by decide, by decide, by decide, by decide, by decide⟩

/-- C8 — `getStats` behind `GET /stats` never mutates the store, answers
`{uv: 0, pv: 0}` (status 200, not an error) for a site that has no
`site_stats` row, and answers the stored pair for an observed site. -/
theorem C8_stats_read_only_zero_default (db : DB) (site : String) :
    (handleStats db (some site)).1 = db
  ∧ ((∀ s ∈ db.site_stats, s.site_origin ≠ site) →
      handleStats db (some site) = (db, StatsResult.ok 0 0))
  ∧ (∀ uv pv : Nat, getStats db site = some (uv, pv) →
      handleStats db (some site) = (db, StatsResult.ok uv pv)) := by
  refine ⟨?_, ?_, ?_⟩
  · cases h : getStats db site with
    | none => simp [handleStats, h]
    | some p => simp [handleStats, h]
  · intro h
    have hg : getStats db site = none := by
      unfold getStats
      rw [List.find?_eq_none.mpr (fun s hs => by simpa using h s hs)]
      rfl
    simp [handleStats, hg]
  · intro uv pv h
    simp [handleStats, h]

/-- C9 — What `trackVisitor` actually does when the `INSERT` into
`visitors` loses a duplicate-key race: the `catch` block logs and
rethrows, so the error surfaces to the caller; the call does NOT fall
back to the update path.  Evaluated at a store with no
`(siteOrigin, visitorHash)` row and a racing concurrent insert. -/
theorem C9_duplicate_key_surfaces :
    trackVisitorE emptyDB "https://s/a" "h1" true = Except.error DBError.uniqueViolation := by
  rfl

/-- C9 (amended) — Whenever the visitor lookup finds no row (so the
`INSERT` path is taken) and the insert hits the unique-constraint
violation, `trackVisitorE` propagates the error instead of absorbing
it; without the race it behaves exactly as the pure `trackVisitor`. -/
theorem C9_error_propagation (db : DB) (site v : String)
    (habs : db.visitors.find? (visitorMatch site v) = none) :
    trackVisitorE db site v true = Except.error DBError.uniqueViolation
  ∧ trackVisitorE db site v false = Except.ok (trackVisitor db site v) := by
  unfold trackVisitorE
  rw [habs]
  exact ⟨rfl, rfl⟩

theorem C9_error_propagation_witness :
    (emptyDB.visitors.find? (visitorMatch "https://s/b" "h9") = none)
  ∧ (trackVisitorE emptyDB "https://s/b" "h9" true = Except.error DBError.uniqueViolation
  ∧ trackVisitorE emptyDB "https://s/b" "h9" false
      = Except.ok (trackVisitor emptyDB "https://s/b" "h9")) :=
  ⟨rfl, C9_error_propagation emptyDB "https://s/b" "h9" rfl⟩

/-- The sixteen lowercase hexadecimal digits. -/
def hexDigits : List Char :=
  (List.range 16).map Nat.digitChar

lemma be4_mem_lt (w : Nat) : ∀ b ∈ be4 w, b < 256 := by
  intro b hb
  simp [be4] at hb
  rcases hb with h | h | h | h <;> omega

lemma sha256Bytes_length (m : List Nat) : (sha256Bytes m).length = 32 := by
  simp [sha256Bytes, be4]

lemma sha256Bytes_lt (m : List Nat) : ∀ b ∈ sha256Bytes m, b < 256 := by
  intro b hb
  simp only [sha256Bytes, List.mem_append] at hb
  rcases hb with ((((((h | h) | h) | h) | h) | h) | h) | h <;> exact be4_mem_lt _ b h

set_option maxRecDepth 8192 in
lemma byteToHex_length (b : Nat) (hb : b < 256) : (byteToHex b).length = 2 := by
  have hall : ∀ n < 256, (byteToHex n).length = 2 := by decide
  exact hall b hb

set_option maxRecDepth 8192 in
lemma byteToHex_mem (b : Nat) (hb : b < 256) : ∀ c ∈ byteToHex b, c ∈ hexDigits := by
  have hall : ∀ n < 256, ∀ c ∈ byteToHex n, c ∈ hexDigits := by decide
  exact hall b hb

lemma hexConcat_cons (b : Nat) (t : List Nat) :
    hexConcat (b :: t) = byteToHex b ++ hexConcat t := rfl

lemma hexConcat_length (l : List Nat) (h : ∀ b ∈ l, b < 256) :
    (hexConcat l).length = 2 * l.length := by
  induction l with
  | nil => rfl
  | cons b t ih =>
    rw [hexConcat_cons, List.length_append, byteToHex_length b (h b (by simp)),
      ih (fun x hx => h x (by simp [hx])), List.length_cons]
    omega

lemma hexConcat_mem (l : List Nat) (h : ∀ b ∈ l, b < 256) :
    ∀ c ∈ hexConcat l, c ∈ hexDigits := by
  induction l with
  | nil => intro c hc; cases hc
  | cons b t ih =>
    intro c hc
    rw [hexConcat_cons, List.mem_append] at hc
    rcases hc with hc | hc
    · exact byteToHex_mem b (h b (by simp)) c hc
    · exact ih (fun x hx => h x (by simp [hx])) c hc

/-- C7 — `generateVisitorHash` is a pure function of `(ip, userAgent)`
(the same pair always yields the same string), and for every input pair
its output is exactly 64 characters, each a lowercase hexadecimal
digit: SHA-256 yields 32 bytes below 256 and each byte renders as
exactly two characters of `0-9a-f`. -/
theorem C7_hash_deterministic_64_hex (ip ua : String) :
    generateVisitorHash ip ua = generateVisitorHash ip ua
  ∧ (generateVisitorHash ip ua).length = 64
  ∧ ∀ c ∈ (generateVisitorHash ip ua).data, c ∈ hexDigits := by
  refine ⟨rfl, ?_, ?_⟩
  · show (hexConcat (sha256Bytes (strBytes (ip ++ ":" ++ ua)))).length = 64
    rw [hexConcat_length _ (sha256Bytes_lt _), sha256Bytes_length]
  · intro c hc
    exact hexConcat_mem _ (sha256Bytes_lt _) c hc

/-- C10 — Separator collision: `generateVisitorHash` hashes the single
string `ip ++ ":" ++ userAgent`, so any two distinct `(ip, userAgent)`
pairs whose joined strings coincide — such as `("1.2.3.4:x", "y")` and
`("1.2.3.4", "x:y")` — receive the identical visitor hash and are
counted as one unique visitor. -/
theorem C10_separator_collision (a1 g1 a2 g2 : String)
    (_hne : (a1, g1) ≠ (a2, g2)) (hcat : a1 ++ ":" ++ g1 = a2 ++ ":" ++ g2) :
    generateVisitorHash a1 g1 = generateVisitorHash a2 g2 := by
  unfold generateVisitorHash
  rw [hcat]

theorem C10_separator_collision_witness :
    ((("1.2.3.4:x", "y") : String × String) ≠ ("1.2.3.4", "x:y")
  ∧ "1.2.3.4:x" ++ ":" ++ "y" = "1.2.3.4" ++ ":" ++ "x:y")
  ∧ generateVisitorHash "1.2.3.4:x" "y" = generateVisitorHash "1.2.3.4" "x:y" :=
  ⟨⟨by decide, by decide⟩,
   C10_separator_collision "1.2.3.4:x" "y" "1.2.3.4" "x:y" (by decide) (by decide)⟩

end Stateflare
